import Mathlib

set_option maxRecDepth 40000

/-!
# AIVault: verification of the spec against the source

Shallow embedding of the claim-relevant parts of the AIVault browser
extension (encryption module, vault app state operations, credential
matcher, TOTP generator, share packager), with theorems settling the
frozen claims C1..C10.

Modelling conventions, used throughout:

* JavaScript strings are Lean `String`s, byte sequences are `List Nat`
  with values below 256, and machine arithmetic is `Nat` arithmetic with
  explicit masks where the source masks.
* External cryptographic primitives (WebCrypto `subtle` AES-GCM,
  CryptoJS AES) are not part of this repository; they are modelled as
  ideal ciphers: a ciphertext is an abstract token recording the key and
  plaintext it was produced from, decryption succeeds exactly when the
  same key (and algorithm) is presented.  The hex/Base64 wire encoding
  of those opaque ciphertext bytes is absorbed into the ideal-cipher
  boundary.  HMAC-SHA1, which the TOTP claims quantify over concretely,
  is implemented in full.
* `JSON.parse` / `JSON.stringify` and JavaScript's string coercion
  (`String(x)`, used implicitly by `JSON.parse` on a non-string
  argument) are modelled executably below; numbers are kept as their
  source lexeme since no claim depends on float semantics.
* Asynchronous functions are modelled as pure functions of their inputs;
  `Date.now()` and random IVs/keys become explicit parameters.
-/

/-! ## JavaScript value model and JSON -/

/-- JavaScript values as produced by `JSON.parse`.  Numbers keep their
source lexeme (`jnum "12"`); no claim depends on numeric semantics. -/
inductive JVal where
  | jnull : JVal
  | jbool (b : Bool) : JVal
  | jnum (raw : String) : JVal
  | jstr (s : String) : JVal
  | jarr (xs : List JVal) : JVal
  | jobj (fields : List (String × JVal)) : JVal
  deriving Repr

/-- JSON whitespace characters. -/
def jsonWs (c : Char) : Bool :=
  c = ' ' || c = '\n' || c = '\t' || c = '\r'

/-- Skip leading JSON whitespace. -/
def skipWs : List Char → List Char
  | [] => []
  | c :: cs => if jsonWs c then skipWs cs else c :: cs

/-- Expect a literal character sequence at the head of the input. -/
def expectChars : List Char → List Char → Option (List Char)
  | [], cs => some cs
  | e :: es, c :: cs => if c = e then expectChars es cs else none
  | _ :: _, [] => none

/-- Decimal digit test. -/
def isDigitCh (c : Char) : Bool := '0' ≤ c ∧ c ≤ '9'

/-- Hex digit value of a character (0 for non-hex input). -/
def hexVal (c : Char) : Nat :=
  if '0' ≤ c ∧ c ≤ '9' then c.toNat - '0'.toNat
  else if 'a' ≤ c ∧ c ≤ 'f' then c.toNat - 'a'.toNat + 10
  else if 'A' ≤ c ∧ c ≤ 'F' then c.toNat - 'A'.toNat + 10
  else 0

/-- Hex digit test. -/
def isHexCh (c : Char) : Bool :=
  ('0' ≤ c ∧ c ≤ '9') || ('a' ≤ c ∧ c ≤ 'f') || ('A' ≤ c ∧ c ≤ 'F')

/-- Lex a JSON number (sign, integer part with no leading zeros,
optional fraction, optional exponent), returning the lexeme and the
rest of the input. -/
def lexNumber (cs : List Char) : Option (List Char × List Char) :=
  let (sign, cs1) :=
    match cs with
    | '-' :: rest => ([('-' : Char)], rest)
    | _ => ([], cs)
  match cs1 with
  | [] => none
  | c :: rest =>
    if c = '0' then
      let (frac, cs2) := lexFracExp rest
      some (sign ++ [c] ++ frac, cs2)
    else if isDigitCh c then
      let ds := rest.takeWhile isDigitCh
      let cs2 := rest.dropWhile isDigitCh
      let (frac, cs3) := lexFracExp cs2
      some (sign ++ [c] ++ ds ++ frac, cs3)
    else none
where
  /-- Lex the optional fraction and exponent parts of a JSON number. -/
  lexFracExp (cs : List Char) : List Char × List Char :=
    let (fr, cs1) :=
      match cs with
      | '.' :: d :: rest =>
        if isDigitCh d then
          (['.', d] ++ rest.takeWhile isDigitCh, rest.dropWhile isDigitCh)
        else ([], cs)
      | _ => ([], cs)
    match cs1 with
    | e :: rest =>
      if e = 'e' ∨ e = 'E' then
        match rest with
        | s :: d :: rest2 =>
          if (s = '+' ∨ s = '-') ∧ isDigitCh d then
            (fr ++ [e, s, d] ++ rest2.takeWhile isDigitCh,
             rest2.dropWhile isDigitCh)
          else if isDigitCh s then
            (fr ++ [e, s] ++ (d :: rest2).takeWhile isDigitCh,
             (d :: rest2).dropWhile isDigitCh)
          else (fr, cs1)
        | [s] =>
          if isDigitCh s then (fr ++ [e, s], []) else (fr, cs1)
        | [] => (fr, cs1)
      else (fr, cs1)
    | [] => (fr, cs1)

mutual

/-- Parse one JSON value; returns the value and the remaining input.
Fueled recursive descent modelling `JSON.parse`. -/
def parseVal : Nat → List Char → Option (JVal × List Char)
  | 0, _ => none
  | fuel + 1, cs =>
    match skipWs cs with
    | [] => none
    | c :: cs1 =>
      if c = 'n' then
        (expectChars ['u', 'l', 'l'] cs1).map (fun r => (JVal.jnull, r))
      else if c = 't' then
        (expectChars ['r', 'u', 'e'] cs1).map (fun r => (JVal.jbool true, r))
      else if c = 'f' then
        (expectChars ['a', 'l', 's', 'e'] cs1).map
          (fun r => (JVal.jbool false, r))
      else if c = '"' then
        (parseStr fuel cs1).map
          (fun p => (JVal.jstr (String.mk p.1), p.2))
      else if c = '[' then
        parseArrItems fuel cs1 true
      else if c = Char.ofNat 123 then
        parseObjItems fuel cs1 true
      else if c = '-' ∨ isDigitCh c then
        (lexNumber (c :: cs1)).map
          (fun p => (JVal.jnum (String.mk p.1), p.2))
      else none

/-- Parse the body of a JSON string after the opening quote. -/
def parseStr : Nat → List Char → Option (List Char × List Char)
  | 0, _ => none
  | fuel + 1, cs =>
    match cs with
    | [] => none
    | '"' :: rest => some ([], rest)
    | '\\' :: e :: rest =>
      let mapped : Option (Char × List Char) :=
        if e = '"' then some ('"', rest)
        else if e = '\\' then some ('\\', rest)
        else if e = '/' then some ('/', rest)
        else if e = 'b' then some (Char.ofNat 8, rest)
        else if e = 'f' then some (Char.ofNat 12, rest)
        else if e = 'n' then some ('\n', rest)
        else if e = 'r' then some ('\r', rest)
        else if e = 't' then some ('\t', rest)
        else if e = 'u' then
          match rest with
          | h1 :: h2 :: h3 :: h4 :: rest2 =>
            if isHexCh h1 ∧ isHexCh h2 ∧ isHexCh h3 ∧ isHexCh h4 then
              some (Char.ofNat
                (hexVal h1 * 4096 + hexVal h2 * 256 + hexVal h3 * 16 +
                  hexVal h4), rest2)
            else none
          | _ => none
        else none
      match mapped with
      | none => none
      | some (ch, rest2) =>
        (parseStr fuel rest2).map (fun p => (ch :: p.1, p.2))
    | '\\' :: [] => none
    | c :: rest =>
      if c.toNat < 32 then none
      else (parseStr fuel rest).map (fun p => (c :: p.1, p.2))

/-- Parse the items of a JSON array after the opening bracket.
`first` is true before the first element has been parsed. -/
def parseArrItems : Nat → List Char → Bool → Option (JVal × List Char)
  | 0, _, _ => none
  | fuel + 1, cs, first =>
    match skipWs cs with
    | ']' :: rest =>
      if first then some (JVal.jarr [], rest) else none
    | cs1 =>
      match parseVal fuel cs1 with
      | none => none
      | some (v, cs2) =>
        match skipWs cs2 with
        | ',' :: rest =>
          (parseArrItems fuel rest false).map
            (fun p =>
              match p.1 with
              | JVal.jarr xs => (JVal.jarr (v :: xs), p.2)
              | other => (other, p.2))
        | ']' :: rest => some (JVal.jarr [v], rest)
        | _ => none

/-- Parse the members of a JSON object after the opening brace.
`first` is true before the first member has been parsed. -/
def parseObjItems : Nat → List Char → Bool → Option (JVal × List Char)
  | 0, _, _ => none
  | fuel + 1, cs, first =>
    match skipWs cs with
    | c :: rest =>
      if c = Char.ofNat 125 then
        if first then some (JVal.jobj [], rest) else none
      else if c = '"' then
        match parseStr fuel rest with
        | none => none
        | some (keyChars, cs2) =>
          match skipWs cs2 with
          | ':' :: cs3 =>
            match parseVal fuel cs3 with
            | none => none
            | some (v, cs4) =>
              match skipWs cs4 with
              | ',' :: cs5 =>
                (parseObjItems fuel cs5 false).map
                  (fun p =>
                    match p.1 with
                    | JVal.jobj fs =>
                      (JVal.jobj ((String.mk keyChars, v) :: fs), p.2)
                    | other => (other, p.2))
              | c2 :: cs5 =>
                if c2 = Char.ofNat 125 then
                  some (JVal.jobj [(String.mk keyChars, v)], cs5)
                else none
              | [] => none
          | _ => none
      else none
    | [] => none

end

/-- Model of `JSON.parse` applied to a string: parse one value and
require only trailing whitespace; `none` models a thrown `SyntaxError`. -/
def jsonParse (s : String) : Option JVal :=
  match parseVal (s.length + 2) s.data with
  | none => none
  | some (v, rest) => if skipWs rest = [] then some v else none

/-- Escape one character for a JSON string literal, as
`JSON.stringify` does. -/
def jsonEscapeChar (c : Char) : List Char :=
  if c = '"' then ['\\', '"']
  else if c = '\\' then ['\\', '\\']
  else if c = '\n' then ['\\', 'n']
  else if c = '\r' then ['\\', 'r']
  else if c = '\t' then ['\\', 't']
  else if c.toNat = 8 then ['\\', 'b']
  else if c.toNat = 12 then ['\\', 'f']
  else if c.toNat < 32 then
    ['\\', 'u', '0', '0',
     (Nat.toDigits 16 (c.toNat / 16)).headD '0',
     (Nat.toDigits 16 (c.toNat % 16)).headD '0']
  else [c]

/-- Quote a string as a JSON string literal. -/
def jsonQuote (s : String) : String :=
  String.mk ('"' :: s.data.flatMap jsonEscapeChar ++ ['"'])

/-- JavaScript string coercion `String(x)` of a value; `JSON.parse`
applies it to a non-string argument before parsing.  Arrays stringify
as their comma-joined elements (with `null` as the empty string),
objects as `"[object Object]"`. -/
def jsToString : JVal → String
  | JVal.jnull => "null"
  | JVal.jbool true => "true"
  | JVal.jbool false => "false"
  | JVal.jnum raw => raw
  | JVal.jstr s => s
  | JVal.jarr xs => String.intercalate "," (toStringList xs)
  | JVal.jobj _ => "[object Object]"
where
  /-- Elements of an array under `Array.prototype.toString`:
  `null` renders as the empty string. -/
  toStringList : List JVal → List String
    | [] => []
    | JVal.jnull :: vs => "" :: toStringList vs
    | v :: vs => jsToString v :: toStringList vs

/-- JavaScript truthiness of a value. -/
def jsTruthyVal : JVal → Bool
  | JVal.jnull => false
  | JVal.jbool b => b
  | JVal.jnum raw => ¬(raw = "0" ∨ raw = "-0" ∨ raw = "0.0")
  | JVal.jstr s => s ≠ ""
  | JVal.jarr _ => true
  | JVal.jobj _ => true

example : jsonParse "null" = some JVal.jnull := rfl
example : jsonParse "" = none := rfl
example : jsonParse "[object Object]" = none := rfl
example : jsonParse " [1, true, \"a\"] " =
    some (JVal.jarr [JVal.jnum "1", JVal.jbool true, JVal.jstr "a"]) := rfl
example :
    jsToString (JVal.jarr [JVal.jobj [("a", JVal.jnum "2")], JVal.jnull,
      JVal.jobj []]) = "[object Object],,[object Object]" := by
  simp [jsToString, jsToString.toStringList]
  rfl

/-! ## Encryption module

Embedding of `EncryptionModule` (src/unnamed/part_003, lines 1016-1334).
The external primitives (WebCrypto PBKDF2 / AES-GCM, CryptoJS PBKDF2 /
AES-CBC) are modelled as ideal primitives:

* PBKDF2 with the fixed salt `AIVault-Static-Salt-For-Consistency` is a
  deterministic function of the passphrase; since derived keys are only
  ever compared for equality, the key material is represented by the
  passphrase itself (an ideal, collision-free KDF).
* AES-GCM / AES-CBC ciphertext (together with its hex / Base64 wire
  encoding inside the envelope) is an abstract token recording which
  algorithm and key produced it and what the plaintext was; decryption
  succeeds exactly when the same algorithm and key are presented,
  modelling GCM authentication failure and CBC padding failure with a
  wrong key.

The runtime's choice of backend (`window.crypto.subtle` availability)
is the explicit parameter `webCrypto`. -/

/-- Derived key material plus the algorithm tag, as returned by
`EncryptionModule.deriveMasterKey`. -/
structure MasterKey where
  keyMaterial : String
  useWebCrypto : Bool
  deriving Repr, DecidableEq, Inhabited

/-- Ideal ciphertext token for the external AES primitives: records the
algorithm (`gcm = true` for the WebCrypto path), the key, and the
plaintext it encrypts. -/
structure IdealCt where
  gcm : Bool
  keyMaterial : String
  plaintext : String
  deriving Repr, DecidableEq, Inhabited

/-- The envelope `EncryptionModule.encrypt` produces (the source
returns it as a JSON string `iv/data/version`; the JSON wrapping is
the inverse of the parse at the top of `decrypt` and is elided). -/
structure Envelope where
  iv : List Nat
  data : IdealCt
  version : Nat
  deriving Repr, DecidableEq, Inhabited

/-- `EncryptionModule.deriveMasterKey`: PBKDF2 (100000 iterations,
SHA-256, fixed salt) on either backend, modelled as the ideal KDF. -/
def deriveMasterKey (masterPassword : String) (webCrypto : Bool) : MasterKey :=
  { keyMaterial := masterPassword, useWebCrypto := webCrypto }

/-- `EncryptionModule.encrypt`: fresh random IV (12 bytes GCM / 16
bytes CBC, passed in explicitly), encrypt under the backend selected by
the key's algorithm tag, envelope with version 1. -/
def encrypt (dataString : String) (masterKey : MasterKey) (iv : List Nat) :
    Envelope :=
  if masterKey.useWebCrypto then
    { iv := iv,
      data := { gcm := true, keyMaterial := masterKey.keyMaterial,
                plaintext := dataString },
      version := 1 }
  else
    { iv := iv,
      data := { gcm := false, keyMaterial := masterKey.keyMaterial,
                plaintext := dataString },
      version := 1 }

/-- The single error `EncryptionModule.decrypt` throws
(`Failed to decrypt data. Possible incorrect password or corrupted
data.`). -/
inductive DecryptError where
  | failedToDecrypt
  deriving Repr, DecidableEq

/-- The raw plaintext recovery step of `EncryptionModule.decrypt`:
WebCrypto path authenticates (GCM tag), CryptoJS path fails on padding
with a wrong key; both modelled by the ideal-cipher key/algorithm
check. -/
def decryptPrim (e : Envelope) (k : MasterKey) : Option String :=
  if k.useWebCrypto then
    if e.data.gcm = true ∧ e.data.keyMaterial = k.keyMaterial then
      some e.data.plaintext
    else none
  else
    if e.data.gcm = false ∧ e.data.keyMaterial = k.keyMaterial then
      some e.data.plaintext
    else none

/-- `EncryptionModule.decrypt`: recover the plaintext, then
`try { return JSON.parse(decrypted) } catch { return decrypted }` —
the decrypted string is re-parsed as JSON when possible and returned
as a parsed value, otherwise returned as a string.  Every underlying
failure is rethrown as the single `DecryptError`. -/
def decrypt (e : Envelope) (k : MasterKey) : Except DecryptError JVal :=
  match decryptPrim e k with
  | none => Except.error DecryptError.failedToDecrypt
  | some s => Except.ok ((jsonParse s).getD (JVal.jstr s))

/-- `EncryptionModule.createVerificationString`: encrypt the
timestamped marker `AIVault-Verification-<Date.now()>` under the key
derived from the passphrase. -/
def createVerificationString (masterPassword : String) (nowMs : Nat)
    (webCrypto : Bool) (iv : List Nat) : Envelope :=
  encrypt ("AIVault-Verification-" ++ toString nowMs)
    (deriveMasterKey masterPassword webCrypto) iv

/-- Boolean prefix test on character lists (kernel-reducible). -/
def listIsPrefixOf : List Char → List Char → Bool
  | [], _ => true
  | a :: as, bs =>
    match bs with
    | [] => false
    | b :: bs2 => a == b && listIsPrefixOf as bs2

/-- `String.prototype.startsWith`, as a prefix test on the character
data. -/
def strStartsWith (s p : String) : Bool := listIsPrefixOf p.data s.data

/-- `EncryptionModule.verifyMasterPassword`: derive the key, decrypt
the token, return whether the decrypted value is a truthy string
starting with the marker; any thrown error (decryption failure, or
`startsWith` on a non-string decrypted value) is caught and yields
`false`.  The source returns the JavaScript truthiness of
`decrypted && decrypted.startsWith(...)`; the function below returns
that truthiness as a `Bool`. -/
def verifyMasterPassword (masterPassword : String) (token : Envelope)
    (webCrypto : Bool) : Bool :=
  match decrypt token (deriveMasterKey masterPassword webCrypto) with
  | Except.error _ => false
  | Except.ok (JVal.jstr s) => strStartsWith s "AIVault-Verification-"
  | Except.ok _ => false

example :
    verifyMasterPassword "pw"
      (createVerificationString "pw" 1700000000000 true [1, 2]) true =
      true := rfl
example :
    verifyMasterPassword "other"
      (createVerificationString "pw" 1700000000000 false [1, 2]) false =
      false := rfl

/-! ## Vault app state and operations

Embedding of the claim-relevant methods of `App`
(src/src/js/app.js): `savePassword`, `deletePassword`, `deleteTOTP`,
and the collection-loading phase of `unlockVault`.  DOM reads become
explicit inputs, `Date.now()` an explicit parameter, and the
`saveVaultData` / `chrome.runtime.sendMessage` / UI-rendering side
effects at the end of each method are outside the in-memory state the
claims are about. -/

/-- In-memory credential record, shaped as the `passwordObj` literal
built in `App.savePassword` (`id` is attached later by the
background-script matcher, hence optional). -/
structure CredentialRecord where
  website : String
  username : String
  password : String
  lastUpdated : Nat
  hasTOTP : Bool
  id : Option String
  deriving Repr, DecidableEq, Inhabited

/-- In-memory TOTP entry; `website`/`username` are the optional weak
back-reference to a credential record (`none` models an absent
property). -/
structure TOTPEntry where
  account : String
  secret : String
  issuer : String
  timestamp : Nat
  website : Option String
  username : Option String
  deriving Repr, DecidableEq, Inhabited

/-- JavaScript truthiness of an optional string property: absent
(`undefined`) and the empty string are both falsy. -/
def jsTruthyStr : Option String → Bool
  | none => false
  | some s => s ≠ ""

/-- The in-memory `App` state touched by the modelled operations. -/
structure AppState where
  isVaultUnlocked : Bool
  masterPassword : Option String
  passwords : List CredentialRecord
  totpSecrets : List TOTPEntry
  deriving Repr, DecidableEq, Inhabited

/-- Observable outcome of a guarded `App` method.  The source's locked
(and invalid-index) guards `return` silently — `silentReturn`.
`vaultLockedError` is never produced by the source; the constructor
exists so that the spec's claimed outcome (claim C5) can be stated
and compared. -/
inductive OpOutcome where
  | silentReturn
  | validationAlert
  | completed
  | vaultLockedError
  deriving Repr, DecidableEq

/-- `Array.prototype.findIndex`: index of the first element matching
the predicate (`none` models the `-1` result). -/
def findIndex (p : α → Bool) : List α → Option Nat
  | [] => none
  | a :: l => if p a then some 0 else (findIndex p l).map (· + 1)

/-- The form inputs `App.savePassword` reads from the DOM. -/
structure SaveInput where
  website : String
  username : String
  password : String
  setupTOTP : Bool
  editing : Bool
  editIndex : Nat
  deriving Repr, DecidableEq, Inhabited

/-- `App.savePassword` (src/src/js/app.js lines 459-521): silent
return when locked; alert-and-return when a trimmed field is empty;
otherwise build `passwordObj` and either replace the record at
`editIndex` or push a new one. -/
def savePassword (st : AppState) (input : SaveInput) (nowMs : Nat) :
    AppState × OpOutcome :=
  if st.isVaultUnlocked = false then (st, OpOutcome.silentReturn)
  else if input.website = "" ∨ input.username = "" ∨ input.password = "" then
    (st, OpOutcome.validationAlert)
  else
    let passwordObj : CredentialRecord :=
      { website := input.website, username := input.username,
        password := input.password, lastUpdated := nowMs,
        hasTOTP := input.setupTOTP, id := none }
    let ps :=
      if input.editing then st.passwords.set input.editIndex passwordObj
      else st.passwords ++ [passwordObj]
    ({ st with passwords := ps }, OpOutcome.completed)

/-- `App.deletePassword` (src/src/js/app.js lines 526-559): silent
return when locked or the index is out of range; otherwise remove the
record and, when it `hasTOTP`, remove the first TOTP entry whose
`website` and `username` are strictly equal to the record's. -/
def deletePassword (st : AppState) (index : Nat) : AppState × OpOutcome :=
  if st.isVaultUnlocked = false ∨ st.passwords.length ≤ index then
    (st, OpOutcome.silentReturn)
  else
    let password := st.passwords.getD index default
    let ps := st.passwords.eraseIdx index
    let ts :=
      if password.hasTOTP then
        match findIndex (fun totp =>
            totp.website == some password.website &&
            totp.username == some password.username) st.totpSecrets with
        | some totpIndex => st.totpSecrets.eraseIdx totpIndex
        | none => st.totpSecrets
      else st.totpSecrets
    ({ st with passwords := ps, totpSecrets := ts }, OpOutcome.completed)

/-- `App.deleteTOTP` (src/src/js/app.js lines 797-824): silent return
when locked or the index is out of range; otherwise remove the entry
and, when it carries truthy `website` and `username`, clear `hasTOTP`
on the first credential record they reference. -/
def deleteTOTP (st : AppState) (index : Nat) : AppState × OpOutcome :=
  if st.isVaultUnlocked = false ∨ st.totpSecrets.length ≤ index then
    (st, OpOutcome.silentReturn)
  else
    let totp := st.totpSecrets.getD index default
    let ts := st.totpSecrets.eraseIdx index
    let ps :=
      if jsTruthyStr totp.website && jsTruthyStr totp.username then
        match findIndex (fun p =>
            totp.website == some p.website &&
            totp.username == some p.username) st.passwords with
        | some passwordIndex =>
          st.passwords.set passwordIndex
            { st.passwords.getD passwordIndex default with hasTOTP := false }
        | none => st.passwords
      else st.passwords
    ({ st with passwords := ps, totpSecrets := ts }, OpOutcome.completed)

/-! ## Unlock: collection loading and save: collection serialization

`App.unlockVault` (src/src/js/app.js lines 296-398) decrypts each of
the three collection blobs independently; `App.saveVaultData`
(lines 564-590) encrypts `JSON.stringify` of each in-memory collection
independently.  Note that `EncryptionModule.decrypt` already re-parses
JSON internally, so the `JSON.parse(decryptedData)` calls in
`unlockVault` receive the already-parsed value and coerce it back to a
string (`String(x)`) before parsing — this is modelled exactly. -/

/-- Look up an object property. -/
def getField (fs : List (String × JVal)) (key : String) : Option JVal :=
  (fs.find? (fun f => f.1 == key)).map (fun f => f.2)

/-- Set an object property (in place if present, appended if new), as
a JavaScript property assignment does. -/
def setField : List (String × JVal) → String → JVal → List (String × JVal)
  | [], key, v => [(key, v)]
  | (k, old) :: fs, key, v =>
    if k = key then (k, v) :: fs else (k, old) :: setField fs key v

/-- The `this.passwords.map` step of `unlockVault` that backfills a
missing (falsy) `lastUpdated` with `Date.now()`.  Non-object elements
are returned unchanged (the source's property assignment on them could
only be reached with an already-corrupt collection). -/
def backfillLastUpdated (nowMs : Nat) : JVal → JVal
  | JVal.jobj fs =>
    if jsTruthyVal ((getField fs "lastUpdated").getD JVal.jnull) then
      JVal.jobj fs
    else JVal.jobj (setField fs "lastUpdated" (JVal.jnum (toString nowMs)))
  | v => v

/-- One collection branch of `unlockVault`: a missing blob, a
decryption failure, a JSON-parse failure and a non-array decoded value
each independently reset just this collection to `[]`. -/
def loadCollection (enc : Option Envelope) (k : MasterKey) : List JVal :=
  match enc with
  | none => []
  | some e =>
    match decrypt e k with
    | Except.error _ => []
    | Except.ok v =>
      match jsonParse (jsToString v) with
      | none => []
      | some (JVal.jarr xs) => xs
      | some _ => []

/-- The three stored collection blobs
(`StorageModule.getVaultData` / `getTOTPSecrets` /
`getSharedPasswords`). -/
structure StoredVault where
  vaultData : Option Envelope
  totpSecrets : Option Envelope
  sharedPasswords : Option Envelope
  deriving Repr, DecidableEq, Inhabited

/-- The collection-loading phase of `App.unlockVault` (after the
passphrase has been verified and the key derived): the three
collections loaded into memory, with the passwords `lastUpdated`
backfill applied. -/
def unlockVaultCollections (stored : StoredVault) (k : MasterKey)
    (nowMs : Nat) : List JVal × List JVal × List JVal :=
  ((loadCollection stored.vaultData k).map (backfillLastUpdated nowMs),
   loadCollection stored.totpSecrets k,
   loadCollection stored.sharedPasswords k)

/-- `JSON.stringify` of one in-memory credential record as built by
`App.savePassword` (property insertion order `website`, `username`,
`password`, `lastUpdated`, `hasTOTP`, then `id` when the
background-script matcher has attached one). -/
def credToJson (r : CredentialRecord) : String :=
  String.mk (Char.ofNat 123 ::
    ("\"website\":" ++ jsonQuote r.website ++
     ",\"username\":" ++ jsonQuote r.username ++
     ",\"password\":" ++ jsonQuote r.password ++
     ",\"lastUpdated\":" ++ toString r.lastUpdated ++
     ",\"hasTOTP\":" ++ (cond r.hasTOTP "true" "false") ++
     (match r.id with
      | none => ""
      | some i => ",\"id\":" ++ jsonQuote i)).data ++ [Char.ofNat 125])

/-- Join strings with a separator character (kernel-reducible
`Array.prototype.join` / `String.intercalate`). -/
def joinChar (sep : Char) : List (List Char) → List Char
  | [] => []
  | [g] => g
  | g :: gs => g ++ sep :: joinChar sep gs

/-- Join strings with a comma. -/
def joinComma (ss : List String) : String :=
  String.mk (joinChar ',' (ss.map String.data))

/-- `JSON.stringify(this.passwords)`, the plaintext that
`App.saveVaultData` encrypts into the credentials blob. -/
def stringifyPasswords (rs : List CredentialRecord) : String :=
  "[" ++ joinComma (rs.map credToJson) ++ "]"

/-- The credentials blob written by `App.saveVaultData`. -/
def saveVaultDataBlob (rs : List CredentialRecord) (k : MasterKey)
    (iv : List Nat) : Envelope :=
  encrypt (stringifyPasswords rs) k iv

example :
    stringifyPasswords [{ website := "example.com", username := "alice",
                          password := "pw123", lastUpdated := 1700000000000,
                          hasTOTP := false, id := none }] =
    "[\x7b\"website\":\"example.com\",\"username\":\"alice\",\"password\":\"pw123\",\"lastUpdated\":1700000000000,\"hasTOTP\":false\x7d]" := rfl

/-! ## Credential matcher

Embedding of `findCredentialsForUrl` (src/src/js/background.js lines
616-653).  The function receives the already-extracted lowercase
hostname (`new URL(url).hostname.toLowerCase()`; URL parsing is the
platform's and a parse failure returns `[]` before any matching). -/

/-- `String.prototype.includes`: substring test on character data. -/
def strIncludes (hay needle : String) : Bool :=
  (List.range (hay.data.length + 1)).any
    (fun i => listIsPrefixOf needle.data (hay.data.drop i))

/-- `String.prototype.toLowerCase` (ASCII; the hostnames and website
fields the claims quantify over are ASCII). -/
def toLowerStr (s : String) : String := String.mk (s.data.map Char.toLower)

/-- `String.prototype.split('.')` (kernel-reducible). -/
def splitOnChar (sep : Char) : List Char → List (List Char)
  | [] => [[]]
  | c :: cs =>
    match splitOnChar sep cs with
    | [] => [[c]]
    | g :: gs =>
      if c = sep then [] :: g :: gs else (c :: g) :: gs

/-- The `possibleDomains` loop of `findCredentialsForUrl`: the suffix
chain of the hostname, stopping before the final single label
(`for (let i = 0; i < domainParts.length - 1; i++)`). -/
def possibleDomains (hostname : String) : List String :=
  let domainParts := splitOnChar '.' hostname.data
  (List.range (domainParts.length - 1)).map
    (fun i => String.mk (joinChar '.' (domainParts.drop i)))

/-- The per-entry match test: the normalized website field contains, or
is contained in, some suffix in the chain. -/
def credentialMatches (hostname : String) (entry : CredentialRecord) : Bool :=
  let website := toLowerStr entry.website
  (possibleDomains hostname).any
    (fun domain => strIncludes website domain || strIncludes domain website)

/-- `` `${entry.website}-${entry.username}`.replace(/[^a-z0-9]/gi, '-') ``. -/
def sanitizeIdChar (c : Char) : Char :=
  if ('a' ≤ c ∧ c ≤ 'z') ∨ ('A' ≤ c ∧ c ≤ 'Z') ∨ ('0' ≤ c ∧ c ≤ '9') then c
  else '-'

/-- The id backfill performed on each entry before matching: a falsy
`id` (absent or empty) is replaced by the sanitized
`website-username` string. -/
def ensureId (entry : CredentialRecord) : CredentialRecord :=
  if jsTruthyStr entry.id then entry
  else { entry with id := some (String.mk
    ((entry.website ++ "-" ++ entry.username).data.map sanitizeIdChar)) }

/-- `findCredentialsForUrl`: empty store short-circuits; otherwise
each entry gets its id backfilled and is kept when the double-substring
test succeeds against any suffix of the hostname. -/
def findCredentialsForUrl (hostname : String)
    (passwords : List CredentialRecord) : List CredentialRecord :=
  if passwords.isEmpty then []
  else (passwords.map ensureId).filter (credentialMatches hostname)

example :
    (findCredentialsForUrl "login.example.com"
      [{ website := "example.com", username := "a", password := "p",
         lastUpdated := 0, hasTOTP := false, id := none }]).length = 1 := rfl
example :
    findCredentialsForUrl "example.com"
      [{ website := "notexample.org", username := "a", password := "p",
         lastUpdated := 0, hasTOTP := false, id := none }] = [] := rfl
example :
    findCredentialsForUrl "localhost"
      [{ website := "localhost", username := "a", password := "p",
         lastUpdated := 0, hasTOTP := false, id := none }] = [] := rfl

/-! ## Share packager

Embedding of `PasswordSharingModule` (src/src/js/passwordSharing.js).
`CryptoJS.AES.encrypt(password, key)` in passphrase mode is an
external primitive, modelled as an ideal cipher token; a wrong key
makes `decrypt(..).toString(Utf8)` either throw or produce an empty /
garbage string, both modelled as `none`.  `decodeShareURL`'s fragment
split / `atob` / `JSON.parse` prelude is the inverse of
`generateShareURL` and is modelled as already applied, so the decode
function receives the package value itself (a malformed URL raises a
distinct invalid-URL error that no claim is about). -/

/-- Ideal CryptoJS passphrase-mode AES ciphertext. -/
structure ShareCt where
  key : String
  plaintext : String
  deriving Repr, DecidableEq, Inhabited

/-- `CryptoJS.AES.decrypt(ct, key).toString(CryptoJS.enc.Utf8)`:
the plaintext under the matching key, `none` under any other. -/
def cryptoJsAesDecryptUtf8 (ct : ShareCt) (key : String) : Option String :=
  if ct.key = key then some ct.plaintext else none

/-- The package object built by
`PasswordSharingModule.createShareablePassword`. -/
structure SharePackage where
  website : String
  username : String
  encryptedPassword : ShareCt
  created : Nat
  expires : Nat
  recipientEmail : Option String
  deriving Repr, DecidableEq, Inhabited

/-- The two failure outcomes of decoding a share: the source throws
`'This shared password has expired'` and `'Invalid decryption key'`
(the latter also covers the malformed-UTF-8 throw of a wrong-key
decrypt), wrapped by the catch-all into messages that remain
distinct. -/
inductive ShareError where
  | expired
  | invalidKey
  deriving Repr, DecidableEq

/-- The decrypted result of opening a share. -/
structure ShareOpen where
  website : String
  username : String
  password : String
  deriving Repr, DecidableEq, Inhabited

/-- `PasswordSharingModule.createShareablePassword`: encrypt only the
password under the fresh random `key`, expiry seven days from
creation, and return package plus key. -/
def createShareablePassword (passwordData : CredentialRecord)
    (recipientEmail : Option String) (key : String) (nowMs : Nat) :
    SharePackage × String :=
  ({ website := passwordData.website,
     username := passwordData.username,
     encryptedPassword := { key := key, plaintext := passwordData.password },
     created := nowMs,
     expires := nowMs + 7 * 24 * 60 * 60 * 1000,
     recipientEmail := recipientEmail }, key)

/-- `PasswordSharingModule.decodeShareURL` after URL decoding: check
`packageObj.expires < Date.now()` BEFORE any decryption; then decrypt
the password with the supplied key, a falsy result raising the
invalid-key error. -/
def decodeShareURL (packageObj : SharePackage) (key : String)
    (nowMs : Nat) : Except ShareError ShareOpen :=
  if packageObj.expires < nowMs then Except.error ShareError.expired
  else
    match cryptoJsAesDecryptUtf8 packageObj.encryptedPassword key with
    | none => Except.error ShareError.invalidKey
    | some decryptedPassword =>
      if decryptedPassword = "" then Except.error ShareError.invalidKey
      else Except.ok { website := packageObj.website,
                       username := packageObj.username,
                       password := decryptedPassword }

/-! ## SHA-1 and HMAC-SHA1

The TOTP claims quantify over the concrete HMAC-SHA1 values, so the
hash is implemented in full (FIPS 180-1), over byte lists with `Nat`
arithmetic masked to 32 bits.  This is the reference semantics of
`CryptoJS.HmacSHA1`, which the repository's minimal `jsSHA` shim
(src/unnamed/part_004) delegates to. -/

/-- Truncate to a 32-bit word. -/
def w32 (n : Nat) : Nat := n % 4294967296

/-- Rotate a 32-bit word left by `n` bits. -/
def rotl32 (n x : Nat) : Nat := w32 (x * 2 ^ n + x / 2 ^ (32 - n))

/-- Bitwise complement within 32 bits (`x` below `2 ^ 32`). -/
def comp32 (x : Nat) : Nat := 4294967295 - x

/-- Big-endian byte rendering of `n` in `k` bytes. -/
def natToBytesBE (k : Nat) (n : Nat) : List Nat :=
  (List.range k).map (fun i => n / 2 ^ (8 * (k - 1 - i)) % 256)

/-- Big-endian 32-bit words from bytes (dropping an incomplete final
group; inputs are always multiples of four bytes). -/
def bytesToWordsBE : List Nat → List Nat
  | b0 :: b1 :: b2 :: b3 :: rest =>
    (((b0 * 256 + b1) * 256 + b2) * 256 + b3) :: bytesToWordsBE rest
  | _ => []

/-- SHA-1 padding: append `0x80`, zero bytes to 56 mod 64, then the
64-bit big-endian bit length. -/
def sha1Pad (msg : List Nat) : List Nat :=
  let len := msg.length
  let zeros := (56 + 64 - (len + 1) % 64) % 64
  msg ++ [128] ++ List.replicate zeros 0 ++ natToBytesBE 8 (8 * len)

/-- Message-schedule expansion of the 16 block words to 80 words.
The accumulator holds the words produced so far, most recent first. -/
def sha1ScheduleGo : Nat → List Nat → List Nat
  | 0, acc => acc.reverse
  | n + 1, acc =>
    let w := rotl32 1 ((((acc.getD 2 0).xor (acc.getD 7 0)).xor
      (acc.getD 13 0)).xor (acc.getD 15 0))
    sha1ScheduleGo n (w :: acc)

/-- The 80-word message schedule of one block. -/
def sha1Schedule (block : List Nat) : List Nat :=
  sha1ScheduleGo 64 block.reverse

/-- One round of the SHA-1 compression function. -/
def sha1Round (st : Nat × Nat × Nat × Nat × Nat) (iw : Nat × Nat) :
    Nat × Nat × Nat × Nat × Nat :=
  let (a, b, c, d, e) := st
  let (i, w) := iw
  let f :=
    if i < 20 then ((b &&& c) ||| (comp32 b &&& d))
    else if i < 40 then (b ^^^ c ^^^ d)
    else if i < 60 then ((b &&& c) ||| (b &&& d) ||| (c &&& d))
    else (b ^^^ c ^^^ d)
  let k :=
    if i < 20 then 1518500249
    else if i < 40 then 1859775393
    else if i < 60 then 2400959708
    else 3395469782
  let temp := w32 (rotl32 5 a + f + e + k + w)
  (temp, a, rotl32 30 b, c, d)

/-- Compress one 16-word block into the chaining state. -/
def sha1Compress (h : Nat × Nat × Nat × Nat × Nat) (block : List Nat) :
    Nat × Nat × Nat × Nat × Nat :=
  let (h0, h1, h2, h3, h4) := h
  let (a, b, c, d, e) :=
    ((sha1Schedule block).enum.map (fun p => (p.1, p.2))).foldl sha1Round
      (h0, h1, h2, h3, h4)
  (w32 (h0 + a), w32 (h1 + b), w32 (h2 + c), w32 (h3 + d), w32 (h4 + e))

/-- Fold the compression over the padded word stream, 16 words at a
time. -/
def sha1Blocks (h : Nat × Nat × Nat × Nat × Nat) :
    List Nat → Nat × Nat × Nat × Nat × Nat
  | w0 :: w1 :: w2 :: w3 :: w4 :: w5 :: w6 :: w7 :: w8 :: w9 :: w10 ::
      w11 :: w12 :: w13 :: w14 :: w15 :: rest =>
    sha1Blocks (sha1Compress h
      [w0, w1, w2, w3, w4, w5, w6, w7, w8, w9, w10, w11, w12, w13, w14, w15])
      rest
  | _ => h

/-- SHA-1 of a byte list, as 20 bytes. -/
def sha1 (msg : List Nat) : List Nat :=
  let st := sha1Blocks (1732584193, 4023233417, 2562383102, 271733878,
    3285377520) (bytesToWordsBE (sha1Pad msg))
  natToBytesBE 4 st.1 ++ natToBytesBE 4 st.2.1 ++ natToBytesBE 4 st.2.2.1 ++
    natToBytesBE 4 st.2.2.2.1 ++ natToBytesBE 4 st.2.2.2.2

/-- HMAC-SHA1 (RFC 2104) with a 64-byte block. -/
def hmacSha1 (key msg : List Nat) : List Nat :=
  let key1 := if 64 < key.length then sha1 key else key
  let key2 := key1 ++ List.replicate (64 - key1.length) 0
  sha1 ((key2.map (fun b => b ^^^ 92)) ++
    sha1 ((key2.map (fun b => b ^^^ 54)) ++ msg))

/-! ## TOTP module

Embedding of `TOTPModule.generateTOTP` and its helpers
(src/unnamed/part_000, lines 112-270), together with the RFC 6238 /
4226 reference algorithm the spec describes, for comparison.

The source builds hex *strings*; a hex string is embedded as its list
of nibble values.  `shaObj.getHMAC` in the `jsSHA` shim calls
`CryptoJS.HmacSHA1(Hex.parse(message), Hex.parse(key))`:
`Hex.parse` packs nibble pairs into bytes and — via `WordArray.clamp`
inside HMAC key setup — zeroes a trailing lone nibble, which together
with HMAC's own zero-padding of short keys makes the effective key
exactly the full nibble pairs.  `nibblePairs` embeds that. -/

/-- Value of one bit. -/
def bitVal (b : Bool) : Nat := cond b 1 0

/-- The five bits of a Base32 character value, most significant
first (`val.toString(2).padStart(5, '0')`). -/
def natToBits5 (v : Nat) : List Bool :=
  [v / 16 % 2 == 1, v / 8 % 2 == 1, v / 4 % 2 == 1, v / 2 % 2 == 1,
   v % 2 == 1]

/-- The Base32 alphabet of `TOTPModule.base32ToHex`. -/
def base32Chars : List Char := "ABCDEFGHIJKLMNOPQRSTUVWXYZ234567".data

/-- `base32Chars.indexOf(c)`, `none` for an invalid character. -/
def charIndexB32 (c : Char) : Option Nat := base32Chars.indexOf? c

/-- The concatenated bit string of `base32ToHex` (invalid characters
are skipped, as `if (val === -1) continue` does). -/
def base32Bits (s : List Char) : List Bool :=
  s.flatMap (fun c =>
    match charIndexB32 c with
    | none => []
    | some v => natToBits5 v)

/-- Hex digits from the bit string, four bits at a time, dropping an
incomplete final chunk (`if (chunk.length === 4)`). -/
def bitsToNibbles : List Bool → List Nat
  | b1 :: b2 :: b3 :: b4 :: rest =>
    (8 * bitVal b1 + 4 * bitVal b2 + 2 * bitVal b3 + bitVal b4)
      :: bitsToNibbles rest
  | _ => []

/-- `TOTPModule.base32ToHex`: the hex string of the secret, as its
nibble values. -/
def base32ToHex (secret : String) : List Nat :=
  bitsToNibbles (base32Bits secret.data)

/-- Pack a hex string (nibble list) into bytes, dropping a trailing
lone nibble: `CryptoJS.enc.Hex.parse` places it in the low nibble of a
final half-byte which `WordArray.clamp` zeroes during HMAC key setup,
and HMAC zero-pads short keys, so the lone nibble never contributes. -/
def nibblePairs : List Nat → List Nat
  | n1 :: n2 :: rest => (16 * n1 + n2) :: nibblePairs rest
  | _ => []

/-- `TOTPModule.intToHex`: `num.toString(16).padStart(16, '0')`
followed by the copy of its first sixteen characters, as nibble
values.  For `num` below `2 ^ 64` (the regime of every claim, carried
as a hypothesis) this is exactly the 16-digit big-endian hex
rendering, which is how it is expressed here. -/
def intToHex (num : Nat) : List Nat :=
  (List.range 16).map (fun i => num / 16 ^ (15 - i) % 16)

/-- Nibble values of the hex rendering of a byte string
(`hmac` as hex output). -/
def bytesToNibs (bs : List Nat) : List Nat :=
  bs.flatMap (fun b => [b / 16, b % 16])

/-- `parseInt` of a hex string given as nibble values. -/
def parseIntNibs (ns : List Nat) : Nat :=
  ns.foldl (fun a n => 16 * a + n) 0

/-- JavaScript `\s` for the characters relevant here
(`secret.replace(/\s+/g, '')`). -/
def isJsWs (c : Char) : Bool :=
  c = ' ' ∨ c = '\t' ∨ c = '\n' ∨ c = '\r' ∨ c = Char.ofNat 12 ∨
    c = Char.ofNat 11

/-- The secret cleanup `secret.replace(/\s+/g, '').toUpperCase()`. -/
def cleanSecret (secret : String) : String :=
  String.mk ((secret.data.filter (fun c => !isJsWs c)).map Char.toUpper)

/-- `otp.toString().padStart(digits, '0')`. -/
def padStartZeros (n : Nat) (s : String) : String :=
  String.mk (List.replicate (n - s.length) '0' ++ s.data)

/-- `TOTPModule.generateTOTP` (src/unnamed/part_000 lines 124-162):
clean the secret, counter from `Date.now()`, HMAC-SHA1 of the 8-byte
big-endian counter keyed by the Base32-decoded secret via the `jsSHA`
shim, dynamic truncation from the hex HMAC, mask to 31 bits, reduce
mod `10 ^ digits` and left-pad. -/
def generateTOTP (secret : String) (nowMs : Nat) (period : Nat)
    (digits : Nat) : String :=
  let s := cleanSecret secret
  let counter := nowMs / 1000 / period
  let hexSecret := base32ToHex s
  let keyBytes := nibblePairs hexSecret
  let msgBytes := nibblePairs (intToHex counter)
  let hmac := bytesToNibs (hmacSha1 keyBytes msgBytes)
  let offset := hmac.getLast?.getD 0
  let binary := parseIntNibs ((hmac.drop (offset * 2)).take 8) &&& 2147483647
  let otp := binary % 10 ^ digits
  padStartZeros digits (toString otp)

/-- `TOTPModule.getRemainingTime`: `period - (nowSeconds % period)`. -/
def getRemainingTime (nowMs : Nat) (period : Nat) : Nat :=
  period - nowMs / 1000 % period

/-! ### RFC 6238 / 4226 reference algorithm (from the spec's words) -/

/-- RFC 4648 Base32 decoding: five bits per character, keeping only
the complete bytes.  Defined on the same skip-invalid bit stream; the
claims restrict to secrets over the Base32 alphabet. -/
def rfcBase32Decode (secret : String) : List Nat :=
  bitsToBytes (base32Bits secret.data)
where
  /-- Bytes from the bit string, eight bits at a time, dropping an
  incomplete final chunk. -/
  bitsToBytes : List Bool → List Nat
    | b1 :: b2 :: b3 :: b4 :: b5 :: b6 :: b7 :: b8 :: rest =>
      (128 * bitVal b1 + 64 * bitVal b2 + 32 * bitVal b3 + 16 * bitVal b4 +
       8 * bitVal b5 + 4 * bitVal b6 + 2 * bitVal b7 + bitVal b8)
        :: bitsToBytes rest
    | _ => []

/-- RFC 4226 dynamic truncation: offset from the low nibble of the
last hash byte, four bytes at that offset, masked to 31 bits. -/
def rfcTruncate (hs : List Nat) : Nat :=
  let offset := (hs.getLast?.getD 0) % 16
  match (hs.drop offset).take 4 with
  | [b0, b1, b2, b3] =>
    (b0 % 128) * 16777216 + b1 * 65536 + b2 * 256 + b3
  | _ => 0

/-- RFC 4226 HOTP: HMAC-SHA1 of the 8-byte big-endian counter,
dynamic truncation, reduction mod `10 ^ digits`, zero-padded. -/
def rfcHotp (key : List Nat) (counter : Nat) (digits : Nat) : String :=
  let hs := hmacSha1 key (natToBytesBE 8 counter)
  padStartZeros digits (toString (rfcTruncate hs % 10 ^ digits))

/-- RFC 6238 TOTP: HOTP at counter `floor(unixSeconds / period)`. -/
def rfcTotp (key : List Nat) (unixSeconds period digits : Nat) : String :=
  rfcHotp key (unixSeconds / period) digits

/-! ## Claim theorems -/

/-- The verification marker string never parses as JSON (its first
character starts no JSON value). -/
lemma jsonParse_marker (t : String) :
    jsonParse ("AIVault-Verification-" ++ t) = none := rfl

/-- The verification marker prefix test succeeds on any marker
string. -/
lemma strStartsWith_marker (t : String) :
    strStartsWith ("AIVault-Verification-" ++ t) "AIVault-Verification-" =
      true := rfl

/-- C1.  For every passphrase, verifying it against the verification
token created from it returns `true`; and for every passphrase and
token, a decryption failure — or a decrypted plaintext that is not a
string carrying the marker prefix — makes `verifyMasterPassword`
return `false` (the function is total: no exception escapes). -/
theorem claim_C1 (p : String) (nowMs : Nat) (webCrypto : Bool)
    (iv : List Nat) (token : Envelope) :
    verifyMasterPassword p (createVerificationString p nowMs webCrypto iv)
      webCrypto = true ∧
    (decrypt token (deriveMasterKey p webCrypto) =
        Except.error DecryptError.failedToDecrypt →
      verifyMasterPassword p token webCrypto = false) ∧
    (∀ v, decrypt token (deriveMasterKey p webCrypto) = Except.ok v →
      (∀ s, v = JVal.jstr s →
        strStartsWith s "AIVault-Verification-" = false) →
      verifyMasterPassword p token webCrypto = false) := by
  refine ⟨?_, ?_, ?_⟩
  · cases webCrypto <;>
      simp [verifyMasterPassword, createVerificationString, encrypt,
        deriveMasterKey, decrypt, decryptPrim, jsonParse_marker,
        strStartsWith_marker]
  · intro h
    simp [verifyMasterPassword, h]
  · intro v hv hns
    simp only [verifyMasterPassword, hv]
    cases v <;> first | rfl | exact hns _ rfl

/-- Witness for C1 at concrete inputs: the round-trip verifies, and a
wrong passphrase is rejected. -/
theorem claim_C1_witness :
    verifyMasterPassword "hunter2"
      (createVerificationString "hunter2" 1700000000000 true [0, 1])
      true = true ∧
    verifyMasterPassword "letmein"
      (createVerificationString "hunter2" 1700000000000 true [0, 1])
      true = false := by
  refine ⟨(claim_C1 "hunter2" 1700000000000 true [0, 1] default).1, ?_⟩
  exact (claim_C1 "letmein" 1700000000000 true [0, 1]
    (createVerificationString "hunter2" 1700000000000 true [0, 1])).2.1 rfl

/-- C2, counterexample.  The claim "decrypting the envelope produced
by encrypting S yields exactly the string S" fails at `S = "null"`:
`decrypt` re-parses the recovered plaintext as JSON, so the round trip
returns the JSON value `null`, not the string `"null"`. -/
theorem claim_C2_counterexample :
    decrypt (encrypt "null" (deriveMasterKey "hunter2" true) [0])
      (deriveMasterKey "hunter2" true) = Except.ok JVal.jnull ∧
    Except.ok JVal.jnull ≠
      (Except.ok (JVal.jstr "null") : Except DecryptError JVal) :=
  ⟨rfl, by simp⟩

/-- C2, amended.  On both backend paths, decrypting the envelope
produced by encrypting `s` under the same derived key succeeds and
yields `s` itself as a string exactly when `s` is not parseable as
JSON; when it is parseable, it yields the JSON-parsed value of `s`
instead. -/
theorem claim_C2_amended (s masterPassword : String) (webCrypto : Bool)
    (iv : List Nat) :
    decrypt (encrypt s (deriveMasterKey masterPassword webCrypto) iv)
      (deriveMasterKey masterPassword webCrypto) =
      Except.ok ((jsonParse s).getD (JVal.jstr s)) := by
  cases webCrypto <;> simp [decrypt, encrypt, decryptPrim, deriveMasterKey]

/-- C5, counterexample.  `App.savePassword` invoked on a locked vault
returns silently; it does not reject with a `VaultLockedError` (no
such error value is ever produced by the source). -/
theorem claim_C5_counterexample :
    (savePassword
      { isVaultUnlocked := false, masterPassword := none,
        passwords := [], totpSecrets := [] }
      { website := "example.com", username := "alice", password := "pw",
        setupTOTP := false, editing := false, editIndex := 0 } 0).2 =
      OpOutcome.silentReturn ∧
    OpOutcome.silentReturn ≠ OpOutcome.vaultLockedError :=
  ⟨rfl, by simp⟩

/-- C5, amended.  Every modelled vault operation (`savePassword`,
`deletePassword`, `deleteTOTP`) invoked while the vault is locked is
rejected at the start of the operation, before any state is touched —
but the rejection is a silent no-op return (state unchanged, no error
value), not a `VaultLockedError`. -/
theorem claim_C5_amended (st : AppState) (input : SaveInput)
    (nowMs i j : Nat) (h : st.isVaultUnlocked = false) :
    savePassword st input nowMs = (st, OpOutcome.silentReturn) ∧
    deletePassword st i = (st, OpOutcome.silentReturn) ∧
    deleteTOTP st j = (st, OpOutcome.silentReturn) := by
  refine ⟨?_, ?_, ?_⟩ <;> simp [savePassword, deletePassword, deleteTOTP, h]

/-- Witness for the amended C5 at a concrete locked state. -/
theorem claim_C5_witness :
    savePassword
      { isVaultUnlocked := false, masterPassword := none,
        passwords := [], totpSecrets :=
          [{ account := "a", secret := "s", issuer := "i", timestamp := 0,
             website := none, username := none }] }
      { website := "w", username := "u", password := "p",
        setupTOTP := false, editing := false, editIndex := 0 } 7 =
      ({ isVaultUnlocked := false, masterPassword := none,
         passwords := [], totpSecrets :=
           [{ account := "a", secret := "s", issuer := "i", timestamp := 0,
              website := none, username := none }] },
       OpOutcome.silentReturn) :=
  (claim_C5_amended _ _ 7 0 0 rfl).1

/-- C8.  Decoding a share whose `expires` is in the past fails with
the expiry error for every supplied key — in particular a wrong one —
before any decryption is attempted; decoding a non-expired share with
a wrong key fails with the invalid-key error; and the two reported
outcomes are distinct. -/
theorem claim_C8 (pkg : SharePackage) (key : String) (nowMs : Nat) :
    (pkg.expires < nowMs →
      decodeShareURL pkg key nowMs = Except.error ShareError.expired) ∧
    (¬ pkg.expires < nowMs → pkg.encryptedPassword.key ≠ key →
      decodeShareURL pkg key nowMs = Except.error ShareError.invalidKey) ∧
    ShareError.expired ≠ ShareError.invalidKey := by
  refine ⟨fun h => by simp [decodeShareURL, h], fun h hk => ?_, by simp⟩
  simp [decodeShareURL, h, cryptoJsAesDecryptUtf8, hk]

/-- Witness for C8: a concrete expired package rejected with the
expiry error under a wrong key, and the same package before expiry
rejected with the invalid-key error under that wrong key. -/
theorem claim_C8_witness :
    decodeShareURL
      { website := "example.com", username := "alice",
        encryptedPassword := { key := "rightkey", plaintext := "pw" },
        created := 0, expires := 10, recipientEmail := none }
      "wrongkey" 11 = Except.error ShareError.expired ∧
    decodeShareURL
      { website := "example.com", username := "alice",
        encryptedPassword := { key := "rightkey", plaintext := "pw" },
        created := 0, expires := 10, recipientEmail := none }
      "wrongkey" 5 = Except.error ShareError.invalidKey :=
  ⟨(claim_C8 _ "wrongkey" 11).1 (by decide),
   (claim_C8 _ "wrongkey" 5).2.1 (by decide) (by decide)⟩

/-- A hostname without the separator splits into the single whole
label. -/
lemma splitOnChar_no_sep (sep : Char) (cs : List Char) (h : sep ∉ cs) :
    splitOnChar sep cs = [cs] := by
  induction cs with
  | nil => rfl
  | cons c cs ih =>
    have hc : c ≠ sep := fun he => h (he ▸ List.mem_cons_self c cs)
    have hcs : sep ∉ cs := fun hm => h (List.mem_cons_of_mem c hm)
    simp [splitOnChar, ih hcs, hc]

/-- C9.  For a dot-free (single-label) hostname the suffix chain is
empty, so the matcher returns no credentials at all — whatever the
stored records are. -/
theorem claim_C9 (hostname : String) (passwords : List CredentialRecord)
    (h : '.' ∉ hostname.data) :
    findCredentialsForUrl hostname passwords = [] := by
  have hpd : possibleDomains hostname = [] := by
    simp [possibleDomains, splitOnChar_no_sep '.' hostname.data h]
  unfold findCredentialsForUrl
  split
  · rfl
  · simp [credentialMatches, hpd]

/-- Witness for C9: `localhost` matches nothing, not even a record
whose website field is exactly `localhost`. -/
theorem claim_C9_witness :
    ('.' ∉ "localhost".data) ∧
    findCredentialsForUrl "localhost"
      [{ website := "localhost", username := "a", password := "p",
         lastUpdated := 0, hasTOTP := false, id := none }] = [] :=
  ⟨by decide, claim_C9 "localhost" _ (by decide)⟩

/-- C10.  Opening a share never reads `recipientEmail`: two packages
identical except for that field decode to the same outcome under every
key and at every time, so naming a recipient imposes no access
restriction. -/
theorem claim_C10 (pkg : SharePackage) (e1 e2 : Option String)
    (key : String) (nowMs : Nat) :
    decodeShareURL { pkg with recipientEmail := e1 } key nowMs =
      decodeShareURL { pkg with recipientEmail := e2 } key nowMs := rfl

/-- The id backfill does not change the website field, so it does not
affect matching. -/
lemma credentialMatches_ensureId (hostname : String)
    (e : CredentialRecord) :
    credentialMatches hostname (ensureId e) = credentialMatches hostname e := by
  unfold ensureId
  split <;> simp [credentialMatches]

/-- C4.  Membership in the matcher's result is exactly the
double-substring test of the record's lowercased website field against
some element of the hostname's suffix chain (records coming out with
their id backfilled); the suffix chain of `a.b.example.com` is
`a.b.example.com`, `b.example.com`, `example.com`; and the two
spec examples behave as claimed. -/
theorem claim_C4 (hostname : String) (passwords : List CredentialRecord)
    (r : CredentialRecord) :
    (r ∈ findCredentialsForUrl hostname passwords ↔
      ∃ e, e ∈ passwords ∧ r = ensureId e ∧
        ∃ d, d ∈ possibleDomains hostname ∧
          (strIncludes (toLowerStr e.website) d ||
           strIncludes d (toLowerStr e.website)) = true) ∧
    possibleDomains "a.b.example.com" =
      ["a.b.example.com", "b.example.com", "example.com"] ∧
    findCredentialsForUrl "login.example.com"
      [{ website := "example.com", username := "alice", password := "p",
         lastUpdated := 0, hasTOTP := false, id := none }] =
      [{ website := "example.com", username := "alice", password := "p",
         lastUpdated := 0, hasTOTP := false,
         id := some "example-com-alice" }] ∧
    findCredentialsForUrl "example.com"
      [{ website := "notexample.org", username := "alice", password := "p",
         lastUpdated := 0, hasTOTP := false, id := none }] = [] := by
  refine ⟨?_, rfl, rfl, rfl⟩
  rcases passwords with _ | ⟨p0, ps⟩
  · simp [findCredentialsForUrl]
  · rw [findCredentialsForUrl]
    simp only [List.isEmpty_cons, if_false, Bool.false_eq_true]
    constructor
    · intro hr
      rw [List.mem_filter] at hr
      obtain ⟨hmem, hpred⟩ := hr
      rw [List.mem_map] at hmem
      obtain ⟨e, he, heq⟩ := hmem
      refine ⟨e, he, heq.symm, ?_⟩
      rw [← heq, credentialMatches_ensureId] at hpred
      simpa [credentialMatches, List.any_eq_true] using hpred
    · rintro ⟨e, he, heq, hd⟩
      rw [List.mem_filter]
      refine ⟨List.mem_map.mpr ⟨e, he, heq.symm⟩, ?_⟩
      rw [heq, credentialMatches_ensureId]
      simpa [credentialMatches, List.any_eq_true] using hd

/-- C6.  Failing input for the unlock-isolation claim: a vault whose
credentials blob was saved by `saveVaultData` from the single record
`(example.com, alice, pw123)` and decrypts fine (first conjunct), with
only the TOTP blob corrupted (second conjunct).  Unlock does proceed
and does isolate the TOTP failure, but the credentials collection
comes out empty rather than holding the stored record (third
conjunct): `EncryptionModule.decrypt` has already JSON-parsed the
blob, so `unlockVault`'s own `JSON.parse(decryptedData)` receives the
parsed array, coerces it to `"[object Object]"`, throws, and the catch
resets the credentials to `[]` on every unlock. -/
theorem claim_C6 :
    decrypt
      (saveVaultDataBlob
        [{ website := "example.com", username := "alice",
           password := "pw123", lastUpdated := 1700000000000,
           hasTOTP := false, id := none }]
        (deriveMasterKey "hunter2" true) [1, 2])
      (deriveMasterKey "hunter2" true) =
      Except.ok (JVal.jarr [JVal.jobj
        [("website", JVal.jstr "example.com"),
         ("username", JVal.jstr "alice"),
         ("password", JVal.jstr "pw123"),
         ("lastUpdated", JVal.jnum "1700000000000"),
         ("hasTOTP", JVal.jbool false)]]) ∧
    decrypt
      { iv := [3],
        data := { gcm := true, keyMaterial := "tampered",
                  plaintext := "junk" },
        version := 1 }
      (deriveMasterKey "hunter2" true) =
      Except.error DecryptError.failedToDecrypt ∧
    unlockVaultCollections
      { vaultData := some (saveVaultDataBlob
          [{ website := "example.com", username := "alice",
             password := "pw123", lastUpdated := 1700000000000,
             hasTOTP := false, id := none }]
          (deriveMasterKey "hunter2" true) [1, 2]),
        totpSecrets := some
          { iv := [3],
            data := { gcm := true, keyMaterial := "tampered",
                      plaintext := "junk" },
            version := 1 },
        sharedPasswords := some
          (encrypt "[]" (deriveMasterKey "hunter2" true) [4]) }
      (deriveMasterKey "hunter2" true) 1700000000001 = ([], [], []) := by
  have hblob : saveVaultDataBlob
      [{ website := "example.com", username := "alice",
         password := "pw123", lastUpdated := 1700000000000,
         hasTOTP := false, id := none }]
      (deriveMasterKey "hunter2" true) [1, 2] =
      encrypt "[\x7b\"website\":\"example.com\",\"username\":\"alice\",\"password\":\"pw123\",\"lastUpdated\":1700000000000,\"hasTOTP\":false\x7d]"
        (deriveMasterKey "hunter2" true) [1, 2] := rfl
  have hd1 : decrypt
      (encrypt "[\x7b\"website\":\"example.com\",\"username\":\"alice\",\"password\":\"pw123\",\"lastUpdated\":1700000000000,\"hasTOTP\":false\x7d]"
        (deriveMasterKey "hunter2" true) [1, 2])
      (deriveMasterKey "hunter2" true) =
      Except.ok (JVal.jarr [JVal.jobj
        [("website", JVal.jstr "example.com"),
         ("username", JVal.jstr "alice"),
         ("password", JVal.jstr "pw123"),
         ("lastUpdated", JVal.jnum "1700000000000"),
         ("hasTOTP", JVal.jbool false)]]) := rfl
  have hd2 : decrypt
      { iv := [3],
        data := { gcm := true, keyMaterial := "tampered",
                  plaintext := "junk" },
        version := 1 }
      (deriveMasterKey "hunter2" true) =
      Except.error DecryptError.failedToDecrypt := rfl
  have hd3 : decrypt (encrypt "[]" (deriveMasterKey "hunter2" true) [4])
      (deriveMasterKey "hunter2" true) = Except.ok (JVal.jarr []) := rfl
  have hts1 : jsToString (JVal.jarr [JVal.jobj
      [("website", JVal.jstr "example.com"),
       ("username", JVal.jstr "alice"),
       ("password", JVal.jstr "pw123"),
       ("lastUpdated", JVal.jnum "1700000000000"),
       ("hasTOTP", JVal.jbool false)]]) = "[object Object]" := by
    simp [jsToString, jsToString.toStringList]
    rfl
  have hts2 : jsToString (JVal.jarr []) = "" := by
    simp [jsToString, jsToString.toStringList]
    rfl
  have hA : loadCollection (some (saveVaultDataBlob
      [{ website := "example.com", username := "alice",
         password := "pw123", lastUpdated := 1700000000000,
         hasTOTP := false, id := none }]
      (deriveMasterKey "hunter2" true) [1, 2]))
      (deriveMasterKey "hunter2" true) = [] := by
    simp only [loadCollection, hblob, hd1, hts1]
    rfl
  have hB : loadCollection (some
      { iv := [3],
        data := { gcm := true, keyMaterial := "tampered",
                  plaintext := "junk" },
        version := 1 })
      (deriveMasterKey "hunter2" true) = [] := by
    simp only [loadCollection, hd2]
  have hC : loadCollection (some (encrypt "[]"
      (deriveMasterKey "hunter2" true) [4]))
      (deriveMasterKey "hunter2" true) = [] := by
    simp only [loadCollection, hd3, hts2]
    rfl
  refine ⟨hblob ▸ hd1, hd2, ?_⟩
  rw [unlockVaultCollections, hA, hB, hC]
  rfl

/-- A found index is within bounds. -/
lemma findIndex_lt_length {p : α → Bool} :
    ∀ {l : List α} {i : Nat}, findIndex p l = some i → i < l.length := by
  intro l
  induction l with
  | nil => intro i h; simp [findIndex] at h
  | cons c tl ih =>
    intro i h
    rw [findIndex] at h
    by_cases hc : p c
    · simp [hc] at h
      simp [← h]
    · simp [hc] at h
      obtain ⟨j, hj, hij⟩ := h
      have := ih hj
      simp only [List.length_cons]
      omega

/-- `findIndex` returning `none` means no element matches. -/
lemma findIndex_none {p : α → Bool} :
    ∀ {l : List α}, findIndex p l = none → ∀ x ∈ l, p x = false := by
  intro l
  induction l with
  | nil => intro _ x hx; cases hx
  | cons c tl ih =>
    intro h x hx
    rw [findIndex] at h
    by_cases hc : p c
    · simp [hc] at h
    · simp [hc] at h
      rcases List.mem_cons.mp hx with hx2 | hx2
      · subst hx2
        exact Bool.eq_false_iff.mpr hc
      · exact ih h x hx2

/-- Removing the first match from a list with at most one match leaves
no match. -/
lemma eraseIdx_no_match {p : α → Bool} :
    ∀ {l : List α} {i : Nat}, findIndex p l = some i →
      (l.filter p).length ≤ 1 → ∀ x ∈ l.eraseIdx i, p x = false := by
  intro l
  induction l with
  | nil => intro i h; simp [findIndex] at h
  | cons c tl ih =>
    intro i h hcount x hx
    rw [findIndex] at h
    by_cases hc : p c
    · simp [hc] at h
      rw [List.filter_cons_of_pos hc, List.length_cons] at hcount
      have h0 : (tl.filter p).length = 0 := by omega
      have hall := List.filter_eq_nil_iff.mp (List.length_eq_zero.mp h0)
      rw [← h] at hx
      simp only [List.eraseIdx_cons_zero] at hx
      exact Bool.eq_false_iff.mpr (hall x hx)
    · simp [hc] at h
      obtain ⟨j, hj, hij⟩ := h
      rw [List.filter_cons_of_neg hc] at hcount
      rw [← hij] at hx
      simp only [List.eraseIdx_cons_succ] at hx
      rcases List.mem_cons.mp hx with hx2 | hx2
      · subst hx2
        exact Bool.eq_false_iff.mpr hc
      · exact ih hj hcount x hx2

/-- `getD` after `set` at the same in-range index. -/
lemma getD_set_self :
    ∀ (l : List α) (i : Nat) (a d : α), i < l.length →
      (l.set i a).getD i d = a := by
  intro l
  induction l with
  | nil => intro i a d h; cases h
  | cons c tl ih =>
    intro i a d h
    cases i with
    | zero => rfl
    | succ i =>
      simp only [List.set_cons_succ, List.getD_cons_succ]
      exact ih i a d (by simpa using Nat.lt_of_succ_lt_succ h)

/-- C7.  The delete operations maintain the cross-reference invariant
on an unlocked vault.  Deleting a credential record with `hasTOTP`
removes the record and — provided the vault holds at most one TOTP
entry with exactly the record's website and username, as the
invariant's singular "the TOTPEntry" presumes — leaves no entry
referencing it.  Deleting a TOTP entry that carries a truthy website
and username referencing an existing credential record (the first
match, at index `pi`) removes the entry and clears that record's
`hasTOTP` flag. -/
theorem claim_C7 (st : AppState) (hunlock : st.isVaultUnlocked = true) :
    (∀ i, i < st.passwords.length →
      (st.passwords.getD i default).hasTOTP = true →
      (st.totpSecrets.filter (fun totp =>
          totp.website == some (st.passwords.getD i default).website &&
          totp.username == some (st.passwords.getD i default).username)).length
        ≤ 1 →
      (deletePassword st i).1.passwords = st.passwords.eraseIdx i ∧
      ∀ t ∈ (deletePassword st i).1.totpSecrets,
        ¬(t.website = some (st.passwords.getD i default).website ∧
          t.username = some (st.passwords.getD i default).username)) ∧
    (∀ j pi, j < st.totpSecrets.length →
      jsTruthyStr (st.totpSecrets.getD j default).website = true →
      jsTruthyStr (st.totpSecrets.getD j default).username = true →
      findIndex (fun p =>
          (st.totpSecrets.getD j default).website == some p.website &&
          (st.totpSecrets.getD j default).username == some p.username)
        st.passwords = some pi →
      (deleteTOTP st j).1.totpSecrets = st.totpSecrets.eraseIdx j ∧
      (deleteTOTP st j).1.passwords.getD pi default =
        { st.passwords.getD pi default with hasTOTP := false }) := by
  constructor
  · intro i hi htotp hcount
    have hguard : ¬(st.isVaultUnlocked = false ∨ st.passwords.length ≤ i) := by
      rw [hunlock]
      push_neg
      exact ⟨by simp, hi⟩
    rw [deletePassword, if_neg hguard]
    refine ⟨rfl, ?_⟩
    intro t ht hmatch
    simp only at ht
    rw [htotp, if_pos rfl] at ht
    have hpt : (fun totp =>
        totp.website == some (st.passwords.getD i default).website &&
        totp.username == some (st.passwords.getD i default).username) t =
        true := by
      simp only [Bool.and_eq_true, beq_iff_eq]
      exact ⟨hmatch.1, hmatch.2⟩
    rcases hfind : findIndex (fun totp =>
        totp.website == some (st.passwords.getD i default).website &&
        totp.username == some (st.passwords.getD i default).username)
        st.totpSecrets with _ | ti
    · rw [hfind] at ht
      have := findIndex_none hfind t ht
      rw [hmatch.1, hmatch.2] at this
      simp at this
    · rw [hfind] at ht
      have := eraseIdx_no_match hfind hcount t ht
      rw [hmatch.1, hmatch.2] at this
      simp at this
  · intro j pi hj hw hu hfind
    have hguard : ¬(st.isVaultUnlocked = false ∨ st.totpSecrets.length ≤ j) := by
      rw [hunlock]
      push_neg
      exact ⟨by simp, hj⟩
    rw [deleteTOTP, if_neg hguard]
    refine ⟨rfl, ?_⟩
    simp only [hw, hu, Bool.and_self, if_pos, hfind]
    exact getD_set_self _ _ _ _ (findIndex_lt_length hfind)

/-- Witness for C7 at a concrete one-record, one-entry vault (fields
in declaration order: website, username, password, lastUpdated,
hasTOTP, id / account, secret, issuer, timestamp, website, username):
deleting the credential removes the linked TOTP entry, and deleting
the TOTP entry clears the record's `hasTOTP` flag. -/
theorem claim_C7_witness :
    (deletePassword
      ⟨true, some "m", [⟨"example.com", "alice", "p", 0, true, none⟩],
       [⟨"acct", "JBSWY3DPEHPK3PXP", "iss", 0, some "example.com",
         some "alice"⟩]⟩ 0).1.passwords = [] ∧
    (∀ t ∈ (deletePassword
      ⟨true, some "m", [⟨"example.com", "alice", "p", 0, true, none⟩],
       [⟨"acct", "JBSWY3DPEHPK3PXP", "iss", 0, some "example.com",
         some "alice"⟩]⟩ 0).1.totpSecrets,
      ¬(t.website = some "example.com" ∧ t.username = some "alice")) ∧
    (deleteTOTP
      ⟨true, some "m", [⟨"example.com", "alice", "p", 0, true, none⟩],
       [⟨"acct", "JBSWY3DPEHPK3PXP", "iss", 0, some "example.com",
         some "alice"⟩]⟩ 0).1.totpSecrets = [] ∧
    (deleteTOTP
      ⟨true, some "m", [⟨"example.com", "alice", "p", 0, true, none⟩],
       [⟨"acct", "JBSWY3DPEHPK3PXP", "iss", 0, some "example.com",
         some "alice"⟩]⟩ 0).1.passwords.getD 0 default =
      ⟨"example.com", "alice", "p", 0, false, none⟩ := by
  have h := claim_C7
    ⟨true, some "m", [⟨"example.com", "alice", "p", 0, true, none⟩],
     [⟨"acct", "JBSWY3DPEHPK3PXP", "iss", 0, some "example.com",
       some "alice"⟩]⟩ rfl
  obtain ⟨ha, hb⟩ := h
  have ha2 := ha 0 (by decide) (by decide) (by decide)
  have hb2 := hb 0 0 (by decide) (by decide) (by decide) (by decide)
  exact ⟨ha2.1, ha2.2, hb2.1, hb2.2⟩

/-- Base32-alphabet characters are non-whitespace and uppercase. -/
lemma base32Chars_clean :
    ∀ c ∈ base32Chars, (!isJsWs c) = true ∧ Char.toUpper c = c := by
  decide

/-- On a secret made of Base32-alphabet characters, the
`replace(/\s+/g, '').toUpperCase()` cleanup is the identity. -/
lemma cleanSecret_eq (s : String) (h : ∀ c ∈ s.data, c ∈ base32Chars) :
    cleanSecret s = s := by
  unfold cleanSecret
  have hf : s.data.filter (fun c => !isJsWs c) = s.data :=
    List.filter_eq_self.mpr (fun c hc => (base32Chars_clean c (h c hc)).1)
  rw [hf]
  have hm : s.data.map Char.toUpper = s.data := by
    rw [List.map_congr_left
      (fun c hc => (base32Chars_clean c (h c hc)).2), List.map_id']
  rw [hm]

/-- Packing the 4-bit chunks of a bit string into pairs gives exactly
its 8-bit chunks: the `jsSHA`/CryptoJS key bytes coincide with the
RFC 4648 byte decoding. -/
lemma nibblePairs_bitsToNibbles : ∀ bs : List Bool,
    nibblePairs (bitsToNibbles bs) = rfcBase32Decode.bitsToBytes bs := by
  intro bs
  induction bs using rfcBase32Decode.bitsToBytes.induct with
  | case1 b1 b2 b3 b4 b5 b6 b7 b8 rest ih =>
    simp only [bitsToNibbles, nibblePairs, rfcBase32Decode.bitsToBytes, ih,
      List.cons.injEq, and_true]
    ring
  | case2 bs h =>
    rcases bs with _ | ⟨b1, _ | ⟨b2, _ | ⟨b3, _ | ⟨b4, _ | ⟨b5, _ | ⟨b6,
      _ | ⟨b7, _ | ⟨b8, rest⟩⟩⟩⟩⟩⟩⟩⟩ <;>
      first
        | rfl
        | (exact absurd rfl (by exact fun hh => h _ _ _ _ _ _ _ _ _ hh))

/-- Pairing the sixteen counter hex digits gives the eight big-endian
counter bytes. -/
lemma nibblePairs_intToHex (n : Nat) :
    nibblePairs (intToHex n) = natToBytesBE 8 n := by
  have h16 : List.range 16 = [0, 1, 2, 3, 4, 5, 6, 7, 8, 9, 10, 11, 12,
    13, 14, 15] := rfl
  have h8 : List.range 8 = [0, 1, 2, 3, 4, 5, 6, 7] := rfl
  rw [intToHex, natToBytesBE, h16, h8]
  simp only [List.map_cons, List.map_nil, nibblePairs]
  norm_num
  refine ⟨?_, ?_, ?_, ?_, ?_, ?_, ?_, ?_⟩ <;> omega

/-- Byte rendering has the requested length. -/
lemma natToBytesBE_length (k n : Nat) : (natToBytesBE k n).length = k := by
  simp [natToBytesBE]

/-- Rendered bytes are below 256. -/
lemma natToBytesBE_lt (k n : Nat) : ∀ b ∈ natToBytesBE k n, b < 256 := by
  intro b hb
  simp only [natToBytesBE, List.mem_map] at hb
  obtain ⟨i, _, hi⟩ := hb
  omega

/-- SHA-1 always produces twenty bytes. -/
lemma sha1_length (msg : List Nat) : (sha1 msg).length = 20 := by
  simp [sha1, natToBytesBE_length]

/-- SHA-1 output bytes are below 256. -/
lemma sha1_lt (msg : List Nat) : ∀ b ∈ sha1 msg, b < 256 := by
  intro b hb
  simp only [sha1, List.mem_append] at hb
  rcases hb with ((((h | h) | h) | h) | h) <;> exact natToBytesBE_lt _ _ b h

/-- HMAC-SHA1 always produces twenty bytes. -/
lemma hmacSha1_length (key msg : List Nat) :
    (hmacSha1 key msg).length = 20 := by
  rw [hmacSha1]
  exact sha1_length _

/-- HMAC-SHA1 output bytes are below 256. -/
lemma hmacSha1_lt (key msg : List Nat) :
    ∀ b ∈ hmacSha1 key msg, b < 256 := by
  rw [hmacSha1]
  exact sha1_lt _

/-- Dropping hex pairs is dropping bytes. -/
lemma bytesToNibs_drop : ∀ (l : List Nat) (k : Nat),
    (bytesToNibs l).drop (2 * k) = bytesToNibs (l.drop k) := by
  intro l
  induction l with
  | nil => intro k; simp [bytesToNibs]
  | cons b tl ih =>
    intro k
    cases k with
    | zero => simp
    | succ k =>
      have h2 : 2 * (k + 1) = 2 * k + 1 + 1 := by ring
      have hb : bytesToNibs (b :: tl) = b / 16 :: b % 16 :: bytesToNibs tl :=
        rfl
      rw [hb, h2, List.drop_succ_cons, List.drop_succ_cons,
        List.drop_succ_cons, ih]

/-- Taking hex pairs is taking bytes. -/
lemma bytesToNibs_take : ∀ (l : List Nat) (k : Nat),
    (bytesToNibs l).take (2 * k) = bytesToNibs (l.take k) := by
  intro l
  induction l with
  | nil => intro k; simp [bytesToNibs]
  | cons b tl ih =>
    intro k
    cases k with
    | zero => simp [bytesToNibs]
    | succ k =>
      have h2 : 2 * (k + 1) = 2 * k + 1 + 1 := by ring
      have hb : bytesToNibs (b :: tl) = b / 16 :: b % 16 :: bytesToNibs tl :=
        rfl
      have ht : (b :: tl).take (k + 1) = b :: tl.take k := rfl
      rw [hb, h2, ht, List.take_succ_cons, List.take_succ_cons, ih]
      rfl

/-- The last hex digit is the low nibble of the last byte. -/
lemma bytesToNibs_getLast : ∀ l : List Nat,
    (bytesToNibs l).getLast?.getD 0 = (l.getLast?.getD 0) % 16 := by
  intro l
  induction l with
  | nil => rfl
  | cons b tl ih =>
    cases tl with
    | nil => rfl
    | cons c tl2 =>
      have hb : bytesToNibs (b :: c :: tl2) =
          b / 16 :: b % 16 :: bytesToNibs (c :: tl2) := rfl
      have hcc : bytesToNibs (c :: tl2) =
          c / 16 :: c % 16 :: bytesToNibs tl2 := rfl
      rw [hb, List.getLast?_cons_cons, hcc, List.getLast?_cons_cons,
        ← hcc, ih, List.getLast?_cons_cons]

/-- `parseInt` of the eight hex digits of four bytes, masked to 31
bits, is the RFC dynamic-truncation value of those bytes. -/
lemma parseIntNibs_word (b0 b1 b2 b3 : Nat) (_h0 : b0 < 256)
    (h1 : b1 < 256) (h2 : b2 < 256) (h3 : b3 < 256) :
    parseIntNibs (bytesToNibs [b0, b1, b2, b3]) &&& 2147483647 =
      (b0 % 128) * 16777216 + b1 * 65536 + b2 * 256 + b3 := by
  have hval : parseIntNibs (bytesToNibs [b0, b1, b2, b3]) =
      b0 * 16777216 + b1 * 65536 + b2 * 256 + b3 := by
    simp [bytesToNibs, parseIntNibs]
    omega
  have hmask := Nat.and_pow_two_sub_one_eq_mod
    (b0 * 16777216 + b1 * 65536 + b2 * 256 + b3) 31
  rw [hval]
  norm_num at hmask
  rw [hmask]
  omega

/-- The source's hex-string dynamic truncation coincides with the RFC
byte-level dynamic truncation on any 20-byte hash. -/
lemma truncate_eq (hs : List Nat) (hlen : hs.length = 20)
    (hlt : ∀ b ∈ hs, b < 256) :
    parseIntNibs (((bytesToNibs hs).drop
        ((bytesToNibs hs).getLast?.getD 0 * 2)).take 8) &&& 2147483647 =
      rfcTruncate hs := by
  rw [bytesToNibs_getLast hs]
  set o := (hs.getLast?.getD 0) % 16 with ho
  have ho16 : o < 16 := Nat.mod_lt _ (by norm_num)
  have h2o : o * 2 = 2 * o := by ring
  have h8 : (8 : Nat) = 2 * 4 := rfl
  rw [h2o, bytesToNibs_drop, h8, bytesToNibs_take]
  have hdl : (hs.drop o).length = 20 - o := by
    rw [List.length_drop, hlen]
  have hex4 : ∃ b0 b1 b2 b3 rest,
      hs.drop o = b0 :: b1 :: b2 :: b3 :: rest := by
    rcases hd : hs.drop o with _ | ⟨b0, _ | ⟨b1, _ | ⟨b2, _ | ⟨b3, rest⟩⟩⟩⟩
    · rw [hd] at hdl; simp at hdl; omega
    · rw [hd] at hdl; simp at hdl; omega
    · rw [hd] at hdl; simp at hdl; omega
    · rw [hd] at hdl; simp at hdl; omega
    · exact ⟨b0, b1, b2, b3, rest, rfl⟩
  obtain ⟨b0, b1, b2, b3, rest, hd⟩ := hex4
  have hmem : ∀ b, b ∈ hs.drop o → b < 256 := fun b hb =>
    hlt b (List.drop_subset o hs hb)
  have hb0 : b0 < 256 := hmem b0 (hd ▸ List.mem_cons_self b0 _)
  have hb1 : b1 < 256 := hmem b1 (hd ▸ List.mem_cons_of_mem _
    (List.mem_cons_self b1 _))
  have hb2 : b2 < 256 := hmem b2 (hd ▸ List.mem_cons_of_mem _
    (List.mem_cons_of_mem _ (List.mem_cons_self b2 _)))
  have hb3 : b3 < 256 := hmem b3 (hd ▸ List.mem_cons_of_mem _
    (List.mem_cons_of_mem _ (List.mem_cons_of_mem _
      (List.mem_cons_self b3 _))))
  rw [rfcTruncate, ← ho, hd]
  have htake : (b0 :: b1 :: b2 :: b3 :: rest).take 4 = [b0, b1, b2, b3] :=
    rfl
  rw [htake]
  exact parseIntNibs_word b0 b1 b2 b3 hb0 hb1 hb2 hb3

/-- C3.  For every secret over the Base32 alphabet, every period and
digit count (and a counter in the 64-bit regime the source's
`intToHex` rendering covers), `TOTPModule.generateTOTP` computes
exactly the RFC 6238/4226 TOTP of the RFC-decoded secret: same
counter, same HMAC-SHA1, same dynamic truncation, mask, reduction and
zero-padding. -/
theorem claim_C3 (secret : String) (nowMs period digits : Nat)
    (hsec : ∀ c ∈ secret.data, c ∈ base32Chars)
    (_hcnt : nowMs / 1000 / period < 18446744073709551616) :
    generateTOTP secret nowMs period digits =
      rfcTotp (rfcBase32Decode secret) (nowMs / 1000) period digits := by
  simp only [generateTOTP, rfcTotp, rfcHotp, base32ToHex, rfcBase32Decode]
  rw [cleanSecret_eq secret hsec]
  rw [nibblePairs_bitsToNibbles (base32Bits secret.data),
    nibblePairs_intToHex (nowMs / 1000 / period)]
  rw [truncate_eq _ (hmacSha1_length _ _) (hmacSha1_lt _ _)]

/-- Witness for C3: the spec's vector secret `JBSWY3DPEHPK3PXP` at
Unix time 1234567890 (counter 41152263, period 30, six digits) — the
source output agrees with the RFC algorithm and both equal the
reference code `742275` (cross-checked against an independent
implementation). -/
theorem claim_C3_witness :
    (∀ c ∈ "JBSWY3DPEHPK3PXP".data, c ∈ base32Chars) ∧
    generateTOTP "JBSWY3DPEHPK3PXP" 1234567890000 30 6 =
      rfcTotp (rfcBase32Decode "JBSWY3DPEHPK3PXP") 1234567890 30 6 ∧
    generateTOTP "JBSWY3DPEHPK3PXP" 1234567890000 30 6 = "742275" :=
  ⟨by decide,
   claim_C3 "JBSWY3DPEHPK3PXP" 1234567890000 30 6 (by decide) (by decide),
   rfl⟩
